import Mathlib

/-!
Shallow embedding of `src/vector.h` (template classes `RawMemory<T>` and
`Vector<T>`), specialised to an element model where a value is a `Nat`.

Raw storage is a list of slots; a slot is `none` when it holds no live
constructed object (raw memory) and `some v` when a live element with value
`v` occupies it.  The stored `capacity_` field of `RawMemory` always equals
the length of its slot list, so capacity is modelled as that length.

Fallibility model: a copy construction of a value `v` raises an exception
iff `cf v = true`, where `cf` is a parameter standing for the element type's
copy behaviour; constructing an element from the `Args...` of `EmplaceBack`
or `Emplace` raises iff the explicit `ctorFail` flag is `true`.  Move
construction is used by the code only under
`std::is_nothrow_move_constructible_v<T>` (or for move-only types), and this
choice is the boolean parameter `nm`; the move path never fails.  A C++
exception escaping a function is `Except.error ()` paired with the state the
object holds when the exception leaves; a normal return is `Except.ok`.
-/

namespace VectorModel

/-- One storage slot: `none` = raw memory, `some v` = live element `v`. -/
abbrev Slot := Option Nat

/-- Contents of a raw buffer, one entry per slot; length = capacity. -/
abbrev Mem := List Slot

/-- Model of `RawMemory<T>`: the buffer contents.  `buffer_ == nullptr`
with `capacity_ == 0` corresponds to the empty list. -/
structure RawMemory where
  slots : Mem
deriving DecidableEq

/-- Source `RawMemory::Capacity()`; the stored field equals the slot count. -/
def RawMemory.Capacity (m : RawMemory) : Nat := m.slots.length

/-- Source `RawMemory::Allocate(n)`: `n` raw slots (`nullptr` when `n = 0`). -/
def RawMemory.Allocate (n : Nat) : RawMemory := ⟨List.replicate n none⟩

/-- Source `RawMemory::operator=(RawMemory&& rhs)`: the body is `Swap(rhs)`.
Result is the pair (state of `*this` after, state of `rhs` after). -/
def RawMemory.moveAssign (lhs rhs : RawMemory) : RawMemory × RawMemory :=
  (rhs, lhs)

/-- Source `RawMemory(RawMemory&& other)`: the fresh object starts with the
default members (`nullptr`, capacity `0`) and then runs `Swap(other)`.
Result is the pair (constructed object, state of `other` after). -/
def RawMemory.moveCtor (other : RawMemory) : RawMemory × RawMemory :=
  (other, ⟨[]⟩)

/-- Model of `Vector<T>`: the owned `RawMemory` and the `size_` field. -/
structure Vector where
  data : RawMemory
  size : Nat
deriving DecidableEq

/-- Source `Vector::Capacity()` = `data_.Capacity()`. -/
def Vector.Capacity (v : Vector) : Nat := v.data.Capacity

/-- Reading one slot of a vector's buffer. -/
def Vector.slot (v : Vector) (i : Nat) : Slot := v.data.slots.getD i none

/-- Source `Vector::operator=(Vector&& rhs)`: the body is `Swap(rhs)`,
which swaps `data_` and `size_`.  Result is (`*this` after, `rhs` after). -/
def Vector.moveAssign (lhs rhs : Vector) : Vector × Vector :=
  (rhs, lhs)

/-- Source `Vector(Vector&& other)`: default members (empty storage,
`size_ = 0`) then `Swap(other)`. -/
def Vector.moveCtor (other : Vector) : Vector × Vector :=
  (other, ⟨⟨[]⟩, 0⟩)

/-- The structural invariant stated by the spec: `size ≤ capacity`, the
positions `[0, size)` hold live elements, and `[size, capacity)` is raw. -/
def Vector.Invariant (v : Vector) : Prop :=
  v.size ≤ v.Capacity ∧
  (∀ i, i < v.size → (v.slot i).isSome = true) ∧
  (∀ i, i < v.Capacity → v.size ≤ i → v.slot i = none)

instance (v : Vector) : Decidable v.Invariant := by
  unfold Vector.Invariant
  exact inferInstance

/-- Source `std::destroy_n(p + off, n)`: ends the lifetime of `n` elements
starting at slot `off`. -/
def destroyN (m : Mem) (off n : Nat) : Mem :=
  match n with
  | 0 => m
  | k + 1 => destroyN (m.set off none) (off + 1) k

/-- Source `std::uninitialized_value_construct_n(p + off, n)`: value-
constructs `n` elements (a value-constructed `Nat` model element is `0`). -/
def valueConstructN (m : Mem) (off n : Nat) : Mem :=
  match n with
  | 0 => m
  | k + 1 => valueConstructN (m.set off (some 0)) (off + 1) k

/-- Source `std::uninitialized_move_n(src + soff, n, dst + doff)` as used
under the nothrow-move branch: transfers the `n` slot values; never fails.
In the value model a moved-from slot keeps its (unspecified in C++, here
unchanged) value; nothing later reads moved-from slots before destroying
them. -/
def uninitMoveN (src : Mem) (soff n : Nat) (dst : Mem) (doff : Nat) : Mem :=
  match n with
  | 0 => dst
  | k + 1 =>
    uninitMoveN src (soff + 1) k (dst.set doff (src.getD soff none)) (doff + 1)

/-- Source `std::uninitialized_copy_n(src + soff, n, dst + doff)` with a
copy constructor that raises on values `v` with `cf v = true`.  On a raise
it destroys the elements it already constructed and propagates, so the
caller's destination is exactly its pre-call state (hence `.error` carries
no memory).  Copying from a raw slot (undefined behaviour in C++, never
reached under the invariant) is modelled as transferring the `none`. -/
def uninitCopyN (cf : Nat → Bool) (src : Mem) (soff n : Nat) (dst : Mem)
    (doff : Nat) : Except Unit Mem :=
  match n with
  | 0 => .ok dst
  | k + 1 =>
    match src.getD soff none with
    | none => uninitCopyN cf src (soff + 1) k (dst.set doff none) (doff + 1)
    | some v =>
      if cf v then .error ()
      else uninitCopyN cf src (soff + 1) k (dst.set doff (some v)) (doff + 1)

/-- The `if constexpr (std::is_nothrow_move_constructible_v<T> ||
!std::is_copy_constructible_v<T>)` selection between
`uninitialized_move_n` and `uninitialized_copy_n` (source lines 194-198,
229-247, 288-292): `nm = true` takes the move branch. -/
def migrateN (nm : Bool) (cf : Nat → Bool) (src : Mem) (soff n : Nat)
    (dst : Mem) (doff : Nat) : Except Unit Mem :=
  if nm then .ok (uninitMoveN src soff n dst doff)
  else uninitCopyN cf src soff n dst doff

/-- Source `Vector::CopyN(from, to, n)`: `n` forward copy assignments
`*(to + i) = *(from + i)` (assignment of the `Nat` model value does not
fail).  `from` and `to` are distinct buffers at every call site. -/
def CopyN (src dst : Mem) (n : Nat) : Mem :=
  match n with
  | 0 => dst
  | k + 1 => (CopyN src dst k).set k (src.getD k none)

/-- Source `std::move_backward(first, last, d_last)` within one buffer:
`n = last - first` move assignments `*--d_last = std::move(*--last)`,
highest index first.  Specialised call shape: arguments are the current
`last`, `d_last` and the remaining count. -/
def moveBackwardN (m : Mem) (last dlast n : Nat) : Mem :=
  match n with
  | 0 => m
  | k + 1 =>
    moveBackwardN (m.set (dlast - 1) (m.getD (last - 1) none)) (last - 1)
      (dlast - 1) k

/-- Source `std::move(first, last, d_first)` within one buffer:
`n = last - first` move assignments `*d_first++ = std::move(*first++)`,
lowest index first. -/
def moveFwdN (m : Mem) (first dfirst n : Nat) : Mem :=
  match n with
  | 0 => m
  | k + 1 =>
    moveFwdN (m.set dfirst (m.getD first none)) (first + 1) (dfirst + 1) k

/-- Source `Vector(const Vector& other)`: allocate capacity `other.size_`,
then `uninitialized_copy_n` all of `other`'s live elements. -/
def Vector.copyCtor (cf : Nat → Bool) (other : Vector) : Except Unit Vector :=
  match uninitCopyN cf other.data.slots 0 other.size
      (List.replicate other.size none) 0 with
  | .error e => .error e
  | .ok m => .ok ⟨⟨m⟩, other.size⟩

/-- Body of `Vector::operator=(const Vector& rhs)` inside the
`this != &rhs` guard (source lines 120-132).  Returns the new state of
`*this` and whether the call returned normally. -/
def Vector.copyAssignBody (cf : Nat → Bool) (lhs rhs : Vector) :
    Vector × Except Unit Unit :=
  if rhs.size > lhs.data.Capacity then
    match Vector.copyCtor cf rhs with
    | .error _ => (lhs, .error ())
    | .ok c => (c, .ok ())
  else if lhs.size > rhs.size then
    let m1 := CopyN rhs.data.slots lhs.data.slots rhs.size
    let m2 := destroyN m1 rhs.size (lhs.size - rhs.size)
    (⟨⟨m2⟩, rhs.size⟩, .ok ())
  else
    let m1 := CopyN rhs.data.slots lhs.data.slots lhs.size
    match uninitCopyN cf rhs.data.slots lhs.size (rhs.size - lhs.size) m1
        lhs.size with
    | .error _ => (⟨⟨m1⟩, lhs.size⟩, .error ())
    | .ok m2 => (⟨⟨m2⟩, rhs.size⟩, .ok ())

/-- Source `Vector::operator=(const Vector&)` with its self-assignment
guard; `isSelf` records whether `this == &rhs` (object identity, which the
value model cannot observe, so it is passed explicitly). -/
def Vector.copyAssign (cf : Nat → Bool) (isSelf : Bool) (lhs rhs : Vector) :
    Vector × Except Unit Unit :=
  if isSelf then (lhs, .ok ()) else Vector.copyAssignBody cf lhs rhs

/-- Which of the three copy-assignment branches the code executes
(1 = temporary-and-swap, 2 = overwrite-then-destroy,
3 = overwrite-then-construct), read off the source's conditions
`rhs.size_ > data_.Capacity()` and `size_ > rhs.size_`. -/
def Vector.copyAssignCase (lhs rhs : Vector) : Nat :=
  if rhs.size > lhs.data.Capacity then 1
  else if lhs.size > rhs.size then 2
  else 3

/-- Modelled from the spec: the three-case selection rule as the claim
words it — case 2 whenever `rhs.size ≤ size`, case 3 only for
`size < rhs.size ≤ capacity`.  Kept separate from `Vector.copyAssignCase`
(translated from the code) so the two rules can be compared. -/
def copyAssignCaseSpec (lhs rhs : Vector) : Nat :=
  if rhs.size > lhs.data.Capacity then 1
  else if rhs.size ≤ lhs.size then 2
  else 3

/-- Source `Vector::EmplaceBack(Args&&...)` (lines 189-208).  `x` is the
value the argument pack constructs, `ctorFail` whether that construction
raises.  Returns the state of the vector and, on normal return, the index
of the appended element (the reference `data_[size_ - 1]`). -/
def Vector.EmplaceBack (nm : Bool) (cf : Nat → Bool) (v : Vector) (x : Nat)
    (ctorFail : Bool) : Vector × Except Unit Nat :=
  if v.size = v.data.Capacity then
    -- RawMemory<T> new_data(size_ == 0 ? 1 : size_ * 2);
    let nd0 : Mem := List.replicate (if v.size = 0 then 1 else v.size * 2) none
    -- new (new_data + size_) T(std::forward<Args>(args)...);
    if ctorFail then (v, .error ())
    else
      let nd1 := nd0.set v.size (some x)
      match migrateN nm cf v.data.slots 0 v.size nd1 0 with
      | .error _ => (v, .error ())
      | .ok nd2 =>
        -- destroy_n old, data_.Swap(new_data), ++size_;
        (⟨⟨nd2⟩, v.size + 1⟩, .ok v.size)
  else
    if ctorFail then (v, .error ())
    else (⟨⟨v.data.slots.set v.size (some x)⟩, v.size + 1⟩, .ok v.size)

/-- Source `Vector::Emplace(pos, Args&&...)` (lines 221-262); `pos` is the
offset `pos - cbegin()`.  Returns the vector's state and, on normal return,
the offset of the returned iterator.  The growth branch translates the two
`try { ... } catch (...) { destroy ... }` blocks exactly as written: the
handlers destroy elements of the new block and fall through without
rethrowing. -/
def Vector.Emplace (nm : Bool) (cf : Nat → Bool) (v : Vector) (pos : Nat)
    (x : Nat) (ctorFail : Bool) : Vector × Except Unit Nat :=
  if pos = v.size then
    Vector.EmplaceBack nm cf v x ctorFail
  else if v.size = v.data.Capacity then
    let nd0 : Mem := List.replicate (if v.size = 0 then 1 else v.size * 2) none
    -- const size_t dis_pos = pos - begin();
    -- new (new_data + dis_pos) T(std::forward<Args>(args)...);
    if ctorFail then (v, .error ())
    else
      let nd1 := nd0.set pos (some x)
      -- migrate [0, dis_pos); on a copy raise the catch destroys the new
      -- element at dis_pos and execution continues
      let nd2 :=
        match migrateN nm cf v.data.slots 0 pos nd1 0 with
        | .ok m => m
        | .error _ => nd1.set pos none
      -- migrate [dis_pos, size) to dis_pos + 1; on a copy raise the catch
      -- destroys slots [0, dis_pos] of the new block and continues
      let nd3 :=
        match migrateN nm cf v.data.slots pos (v.size - pos) nd2 (pos + 1) with
        | .ok m => m
        | .error _ => destroyN nd2 0 (pos + 1)
      -- destroy_n old, data_.Swap(new_data), res_pos = begin() + dis_pos,
      -- ++size_;
      (⟨⟨nd3⟩, v.size + 1⟩, .ok pos)
  else
    -- T new_t(std::forward<Args>(args)...);
    if ctorFail then (v, .error ())
    else
      -- new (data_ + size_) T(std::move(data_[size_ - 1u]));
      let m1 := v.data.slots.set v.size (v.data.slots.getD (v.size - 1) none)
      -- std::move_backward(res_pos, end() - 1, end());
      let m2 := moveBackwardN m1 (v.size - 1) v.size (v.size - 1 - pos)
      -- *res_pos = std::move(new_t); ++size_;
      (⟨⟨m2.set pos (some x)⟩, v.size + 1⟩, .ok pos)

/-- Source `Vector::Erase(pos)` (lines 264-271); `pos` is the offset of the
iterator.  Returns the state and the offset of the returned iterator. -/
def Vector.Erase (v : Vector) (pos : Nat) : Vector × Nat :=
  -- std::move(res_pos + 1, end(), res_pos);
  let m1 := moveFwdN v.data.slots (pos + 1) pos (v.size - (pos + 1))
  -- std::destroy_n(end() - 1, 1u); --size_;
  let m2 := destroyN m1 (v.size - 1) 1
  (⟨⟨m2⟩, v.size - 1⟩, pos)

/-- Source `Vector::Reserve(new_capacity)` (lines 283-296). -/
def Vector.Reserve (nm : Bool) (cf : Nat → Bool) (v : Vector)
    (newCapacity : Nat) : Vector × Except Unit Unit :=
  if newCapacity ≤ v.data.Capacity then (v, .ok ())
  else
    match migrateN nm cf v.data.slots 0 v.size
        (List.replicate newCapacity none) 0 with
    | .error _ => (v, .error ())
    | .ok m => (⟨⟨m⟩, v.size⟩, .ok ())

/-! Pointwise characterisations of the memory primitives. -/

lemma getD_set_self (l : Mem) (i : Nat) (a : Slot) (h : i < l.length) :
    (l.set i a).getD i none = a := by
  simp [List.getD_eq_getElem?_getD, List.getElem?_set_self, h]

lemma getD_set_ne (l : Mem) (i j : Nat) (a : Slot) (h : i ≠ j) :
    (l.set i a).getD j none = l.getD j none := by
  simp [List.getD_eq_getElem?_getD, List.getElem?_set_ne, h]

lemma getD_out (l : Mem) {i : Nat} (h : l.length ≤ i) : l.getD i none = none := by
  simp [List.getD_eq_getElem?_getD, List.getElem?_eq_none, h]

lemma getD_set_none (l : Mem) (i : Nat) :
    (l.set i none).getD i none = none := by
  rcases Nat.lt_or_ge i l.length with h | h
  · exact getD_set_self l i none h
  · exact getD_out _ (by rw [List.length_set]; exact h)

lemma getD_replicate (n i : Nat) :
    (List.replicate n (none : Slot)).getD i none = none := by
  rcases Nat.lt_or_ge i n with h | h
  · simp [List.getD_eq_getElem?_getD, List.getElem?_replicate, h]
  · exact getD_out _ (by simpa using h)

lemma destroyN_length (m : Mem) (off n : Nat) :
    (destroyN m off n).length = m.length := by
  induction n generalizing m off with
  | zero => rfl
  | succ k ih => simp only [destroyN]; rw [ih, List.length_set]

lemma destroyN_getD (m : Mem) (off n i : Nat) :
    (destroyN m off n).getD i none =
      if off ≤ i ∧ i < off + n then none else m.getD i none := by
  induction n generalizing m off with
  | zero => simp only [destroyN]; rw [if_neg (by omega)]
  | succ k ih =>
    simp only [destroyN]
    rw [ih]
    by_cases h1 : off + 1 ≤ i ∧ i < off + 1 + k
    · rw [if_pos h1, if_pos (by omega)]
    · rw [if_neg h1]
      by_cases h2 : i = off
      · subst h2; rw [getD_set_none, if_pos (by omega)]
      · rw [getD_set_ne _ _ _ _ (by omega), if_neg (by omega)]

lemma uninitMoveN_length (src : Mem) (soff n : Nat) (dst : Mem) (doff : Nat) :
    (uninitMoveN src soff n dst doff).length = dst.length := by
  induction n generalizing soff dst doff with
  | zero => rfl
  | succ k ih => simp only [uninitMoveN]; rw [ih, List.length_set]

lemma uninitMoveN_getD (src : Mem) (soff n : Nat) (dst : Mem) (doff i : Nat)
    (hb : doff + n ≤ dst.length) :
    (uninitMoveN src soff n dst doff).getD i none =
      if doff ≤ i ∧ i < doff + n then src.getD (soff + (i - doff)) none
      else dst.getD i none := by
  induction n generalizing src soff dst doff with
  | zero => simp only [uninitMoveN]; rw [if_neg (by omega)]
  | succ k ih =>
    simp only [uninitMoveN]
    rw [ih src (soff + 1) _ (doff + 1) (by rw [List.length_set]; omega)]
    by_cases h1 : doff + 1 ≤ i ∧ i < doff + 1 + k
    · rw [if_pos h1, if_pos (by omega)]
      rw [show soff + 1 + (i - (doff + 1)) = soff + (i - doff) from by omega]
    · rw [if_neg h1]
      by_cases h2 : i = doff
      · subst h2
        rw [getD_set_self _ _ _ (by omega), if_pos (by omega)]
        rw [show soff + (i - i) = soff from by omega]
      · rw [getD_set_ne _ _ _ _ (by omega), if_neg (by omega)]

lemma uninitCopyN_false (src : Mem) (soff n : Nat) (dst : Mem) (doff : Nat) :
    uninitCopyN (fun _ => false) src soff n dst doff =
      .ok (uninitMoveN src soff n dst doff) := by
  induction n generalizing soff dst doff with
  | zero => rfl
  | succ k ih =>
    simp only [uninitCopyN, uninitMoveN]
    cases h : src.getD soff none <;> simp [h, ih]

lemma migrateN_false (nm : Bool) (src : Mem) (soff n : Nat) (dst : Mem)
    (doff : Nat) :
    migrateN nm (fun _ => false) src soff n dst doff =
      .ok (uninitMoveN src soff n dst doff) := by
  cases nm <;> simp [migrateN, uninitCopyN_false]

lemma CopyN_length (src dst : Mem) (n : Nat) :
    (CopyN src dst n).length = dst.length := by
  induction n with
  | zero => rfl
  | succ k ih => simp only [CopyN]; rw [List.length_set, ih]

lemma CopyN_getD (src dst : Mem) (n i : Nat) (hb : n ≤ dst.length) :
    (CopyN src dst n).getD i none =
      if i < n then src.getD i none else dst.getD i none := by
  induction n with
  | zero => simp only [CopyN]; rw [if_neg (by omega)]
  | succ k ih =>
    simp only [CopyN]
    by_cases h2 : i = k
    · subst h2
      rw [getD_set_self _ _ _ (by rw [CopyN_length]; omega), if_pos (by omega)]
    · rw [getD_set_ne _ _ _ _ (by omega), ih (by omega)]
      by_cases h3 : i < k
      · rw [if_pos h3, if_pos (by omega)]
      · rw [if_neg h3, if_neg (by omega)]

lemma moveBackwardN_length (m : Mem) (last dlast n : Nat) :
    (moveBackwardN m last dlast n).length = m.length := by
  induction n generalizing m last dlast with
  | zero => rfl
  | succ k ih => simp only [moveBackwardN]; rw [ih, List.length_set]

lemma moveBackwardN_getD (m : Mem) (last n i : Nat) (hl : last < m.length)
    (hn : n ≤ last) :
    (moveBackwardN m last (last + 1) n).getD i none =
      if last - n < i ∧ i ≤ last then m.getD (i - 1) none
      else m.getD i none := by
  induction n generalizing m last with
  | zero => simp only [moveBackwardN]; rw [if_neg (by omega)]
  | succ k ih =>
    simp only [moveBackwardN, Nat.add_sub_cancel]
    have h1 := ih (m.set last (m.getD (last - 1) none)) (last - 1)
      (by rw [List.length_set]; omega) (by omega)
    rw [show last - 1 + 1 = last from by omega] at h1
    rw [h1]
    by_cases hc : last - 1 - k < i ∧ i ≤ last - 1
    · rw [if_pos hc, getD_set_ne _ _ _ _ (show last ≠ i - 1 from by omega),
        if_pos (by omega)]
    · rw [if_neg hc]
      by_cases h2 : i = last
      · subst h2
        rw [getD_set_self _ _ _ hl, if_pos (by omega)]
      · rw [getD_set_ne _ _ _ _ (by omega), if_neg (by omega)]

lemma moveFwdN_length (m : Mem) (first dfirst n : Nat) :
    (moveFwdN m first dfirst n).length = m.length := by
  induction n generalizing m first dfirst with
  | zero => rfl
  | succ k ih => simp only [moveFwdN]; rw [ih, List.length_set]

lemma moveFwdN_getD (m : Mem) (dfirst n i : Nat) (hb : dfirst + n ≤ m.length) :
    (moveFwdN m (dfirst + 1) dfirst n).getD i none =
      if dfirst ≤ i ∧ i < dfirst + n then m.getD (i + 1) none
      else m.getD i none := by
  induction n generalizing m dfirst with
  | zero => simp only [moveFwdN]; rw [if_neg (by omega)]
  | succ k ih =>
    simp only [moveFwdN]
    have h1 := ih (m.set dfirst (m.getD (dfirst + 1) none)) (dfirst + 1)
      (by rw [List.length_set]; omega)
    rw [h1]
    by_cases hc : dfirst + 1 ≤ i ∧ i < dfirst + 1 + k
    · rw [if_pos hc, getD_set_ne _ _ _ _ (show dfirst ≠ i + 1 from by omega),
        if_pos (by omega)]
    · rw [if_neg hc]
      by_cases h2 : i = dfirst
      · subst h2
        rw [getD_set_self _ _ _ (by omega), if_pos (by omega)]
      · rw [getD_set_ne _ _ _ _ (by omega), if_neg (by omega)]

/-! Branch characterisations of the member functions, obtained by deciding
the source's conditionals and, for non-failing element operations
(`cf = fun _ => false`), collapsing the migrate branches. -/

lemma EmplaceBack_noGrowth_eq (nm : Bool) (cf : Nat → Bool) (v : Vector)
    (x : Nat) (h : ¬ v.size = v.data.Capacity) :
    Vector.EmplaceBack nm cf v x false =
      (⟨⟨v.data.slots.set v.size (some x)⟩, v.size + 1⟩, .ok v.size) := by
  unfold Vector.EmplaceBack
  rw [if_neg h]
  rfl

lemma EmplaceBack_growth_eq (nm : Bool) (v : Vector) (x : Nat)
    (h : v.size = v.data.Capacity) :
    Vector.EmplaceBack nm (fun _ => false) v x false =
      (⟨⟨uninitMoveN v.data.slots 0 v.size
          ((List.replicate (if v.size = 0 then 1 else v.size * 2) none).set
            v.size (some x)) 0⟩, v.size + 1⟩, .ok v.size) := by
  unfold Vector.EmplaceBack
  rw [if_pos h]
  simp only [migrateN_false]
  rfl

lemma Reserve_noop_eq (nm : Bool) (cf : Nat → Bool) (v : Vector) (c : Nat)
    (h : c ≤ v.data.Capacity) :
    Vector.Reserve nm cf v c = (v, .ok ()) := by
  unfold Vector.Reserve
  rw [if_pos h]

lemma Reserve_grow_eq (nm : Bool) (v : Vector) (c : Nat)
    (h : ¬ c ≤ v.data.Capacity) :
    Vector.Reserve nm (fun _ => false) v c =
      (⟨⟨uninitMoveN v.data.slots 0 v.size (List.replicate c none) 0⟩,
        v.size⟩, .ok ()) := by
  unfold Vector.Reserve
  rw [if_neg h]
  simp only [migrateN_false]

lemma Emplace_inplace_eq (nm : Bool) (cf : Nat → Bool) (v : Vector)
    (p x : Nat) (hp : ¬ p = v.size) (hc : ¬ v.size = v.data.Capacity) :
    Vector.Emplace nm cf v p x false =
      (⟨⟨(moveBackwardN (v.data.slots.set v.size
            (v.data.slots.getD (v.size - 1) none))
          (v.size - 1) v.size (v.size - 1 - p)).set p (some x)⟩,
        v.size + 1⟩, .ok p) := by
  unfold Vector.Emplace
  rw [if_neg hp, if_neg hc]
  rfl

lemma copyAssignBody_case1_eq (a b : Vector) (h : b.size > a.data.Capacity) :
    Vector.copyAssignBody (fun _ => false) a b =
      (⟨⟨uninitMoveN b.data.slots 0 b.size (List.replicate b.size none) 0⟩,
        b.size⟩, .ok ()) := by
  unfold Vector.copyAssignBody Vector.copyCtor
  rw [if_pos h]
  simp only [uninitCopyN_false]

lemma copyAssignBody_case2_eq (a b : Vector) (h1 : ¬ b.size > a.data.Capacity)
    (h2 : a.size > b.size) :
    Vector.copyAssignBody (fun _ => false) a b =
      (⟨⟨destroyN (CopyN b.data.slots a.data.slots b.size) b.size
          (a.size - b.size)⟩, b.size⟩, .ok ()) := by
  unfold Vector.copyAssignBody
  rw [if_neg h1, if_pos h2]

lemma copyAssignBody_case3_eq (a b : Vector) (h1 : ¬ b.size > a.data.Capacity)
    (h2 : ¬ a.size > b.size) :
    Vector.copyAssignBody (fun _ => false) a b =
      (⟨⟨uninitMoveN b.data.slots a.size (b.size - a.size)
          (CopyN b.data.slots a.data.slots a.size) a.size⟩, b.size⟩,
        .ok ()) := by
  unfold Vector.copyAssignBody
  rw [if_neg h1, if_neg h2]
  simp only [uninitCopyN_false]

/-! Claim theorems. -/

/-- C1 counterexample: move-assigning onto a non-empty target does not leave
the source empty.  With target storage `[5]` and source storage `[7]`, after
`target = std::move(source)` the moved-from source holds the target's former
block: capacity 1 (and, for the sequence layer, size 1), not the empty
state the claim demands regardless of the target's prior state. -/
theorem C1_counterexample :
    (RawMemory.moveAssign ⟨[some 5]⟩ ⟨[some 7]⟩).2.Capacity = 1 ∧
    (Vector.moveAssign ⟨⟨[some 5]⟩, 1⟩ ⟨⟨[some 7]⟩, 1⟩).2.Capacity = 1 ∧
    (Vector.moveAssign ⟨⟨[some 5]⟩, 1⟩ ⟨⟨[some 7]⟩, 1⟩).2.size = 1 := by
  exact ⟨rfl, rfl, rfl⟩

/-- C1 (amended): move-assignment of `RawMemory` and of `Vector` exchanges
the internal state of target and source (the bodies are `Swap`), so the
target receives the source's pointer/capacity (plus size), and the source
receives the target's former state — which is the empty state exactly when
the target was empty, as in move-construction, where the fresh target
starts out empty and the source therefore always ends null/capacity 0
(size 0). -/
theorem C1_moveAssign_swaps (a b : RawMemory) (v w : Vector) :
    RawMemory.moveAssign a b = (b, a) ∧
    Vector.moveAssign v w = (w, v) ∧
    (RawMemory.moveCtor a).1 = a ∧ (RawMemory.moveCtor a).2.Capacity = 0 ∧
    (Vector.moveCtor v).1 = v ∧
    (Vector.moveCtor v).2.Capacity = 0 ∧ (Vector.moveCtor v).2.size = 0 := by
  exact ⟨rfl, rfl, rfl, rfl, rfl, rfl, rfl⟩

/-- C2: refuted by the code — `Vector::Emplace`'s reallocating branch
catches a failing element copy and returns normally.  Take a vector holding
the single element `1` (size 1 = capacity 1), an element type whose copy
construction raises exactly on the value `1` and is not nothrow-move, and
insert the value `5` at position 0.  The suffix-migration copy raises (first
conjunct), yet the call swallows it, adopts the new block, increments size
and returns normally with iterator offset 0 (second conjunct). -/
theorem C2_emplace_swallows_failure :
    migrateN false (fun a => a == 1) [some 1] 0 1 [some 5, none] 1 =
      .error () ∧
    Vector.Emplace false (fun a => a == 1) ⟨⟨[some 1]⟩, 1⟩ 0 5 false =
      (⟨⟨[none, none]⟩, 2⟩, .ok 0) := by
  exact ⟨rfl, rfl⟩

/-- C3: refuted by the code on the same input as C2 — after that normally
returning `Emplace` call the sequence reports size 2 inside capacity 2,
but neither position of `[0, size)` holds a live element, so the live-range
invariant does not hold after every public operation. -/
theorem C3_invariant_broken :
    (Vector.Emplace false (fun a => a == 1) ⟨⟨[some 1]⟩, 1⟩ 0 5 false).2 =
      .ok 0 ∧
    ¬ (Vector.Emplace false (fun a => a == 1)
        ⟨⟨[some 1]⟩, 1⟩ 0 5 false).1.Invariant := by
  exact ⟨rfl, by decide⟩

/-- C4: appending to a full vector allocates the new block and constructs
the new element there first; if that construction fails, the exception
propagates and `data_` and `size_` were never touched, so the vector is
exactly its pre-call state (strong guarantee for append-with-growth). -/
theorem C4_emplaceBack_growth_ctor_fail_strong (nm : Bool) (cf : Nat → Bool)
    (v : Vector) (x : Nat) (h : v.size = v.data.Capacity) :
    Vector.EmplaceBack nm cf v x true = (v, .error ()) := by
  unfold Vector.EmplaceBack
  rw [if_pos h]
  rfl

/-- C4 witness: a full vector of the three elements `1, 2, 3` with a failing
construction of the fourth element is returned unchanged with the failure. -/
theorem C4_witness :
    Vector.EmplaceBack true (fun _ => false)
        ⟨⟨[some 1, some 2, some 3]⟩, 3⟩ 9 true =
      (⟨⟨[some 1, some 2, some 3]⟩, 3⟩, .error ()) :=
  C4_emplaceBack_growth_ctor_fail_strong true (fun _ => false) _ 9 rfl

/-- C10: `operator=(const Vector&)` opens with `if (this != &rhs)`, so
self-assignment takes the guard's skip path and leaves the vector with the
same size, the same capacity and every slot unchanged, returning
normally. -/
theorem C10_self_assign_noop (cf : Nat → Bool) (v : Vector) :
    (Vector.copyAssign cf true v v).1.size = v.size ∧
    (Vector.copyAssign cf true v v).1.Capacity = v.Capacity ∧
    (∀ i, (Vector.copyAssign cf true v v).1.slot i = v.slot i) ∧
    (Vector.copyAssign cf true v v).2 = .ok () := by
  exact ⟨rfl, rfl, fun i => rfl, rfl⟩

/-- C6: appending with spare capacity constructs the new element in slot
`size` and keeps the capacity; appending at `size == capacity` reallocates
to capacity exactly `max(1, 2*size)` (the source's
`size_ == 0 ? 1 : size_ * 2`); in both cases size grows by one and the
stored elements keep their values and order. -/
theorem C6_emplaceBack_append (nm : Bool) (v : Vector) (x : Nat) :
    (v.size < v.Capacity →
      (Vector.EmplaceBack nm (fun _ => false) v x false).1.size = v.size + 1 ∧
      (Vector.EmplaceBack nm (fun _ => false) v x false).1.Capacity =
        v.Capacity ∧
      (Vector.EmplaceBack nm (fun _ => false) v x false).1.slot v.size =
        some x ∧
      (∀ i, i < v.size →
        (Vector.EmplaceBack nm (fun _ => false) v x false).1.slot i =
          v.slot i)) ∧
    (v.size = v.Capacity →
      (Vector.EmplaceBack nm (fun _ => false) v x false).1.size = v.size + 1 ∧
      (Vector.EmplaceBack nm (fun _ => false) v x false).1.Capacity =
        max 1 (2 * v.size) ∧
      (Vector.EmplaceBack nm (fun _ => false) v x false).1.slot v.size =
        some x ∧
      (∀ i, i < v.size →
        (Vector.EmplaceBack nm (fun _ => false) v x false).1.slot i =
          v.slot i)) := by
  constructor
  · intro h
    have hlt : v.size < v.data.slots.length := h
    have e1 : v.data.Capacity = v.data.slots.length := rfl
    rw [EmplaceBack_noGrowth_eq nm _ v x (by omega)]
    refine ⟨rfl, ?_, ?_, ?_⟩
    · simp only [Vector.Capacity, RawMemory.Capacity, List.length_set]
    · exact getD_set_self _ _ _ hlt
    · intro i hi
      exact getD_set_ne _ _ _ _ (by omega)
  · intro h
    rw [EmplaceBack_growth_eq nm v x h]
    have hcap : v.size < (if v.size = 0 then 1 else v.size * 2) := by
      by_cases h0 : v.size = 0
      · rw [if_pos h0]; omega
      · rw [if_neg h0]; omega
    have hlen :
        ((List.replicate (if v.size = 0 then 1 else v.size * 2)
            (none : Slot)).set v.size (some x)).length =
          (if v.size = 0 then 1 else v.size * 2) := by
      rw [List.length_set, List.length_replicate]
    refine ⟨rfl, ?_, ?_, ?_⟩
    · simp only [Vector.Capacity, RawMemory.Capacity, uninitMoveN_length]
      rw [hlen]
      by_cases h0 : v.size = 0
      · rw [if_pos h0, h0]; decide
      · rw [if_neg h0]; omega
    · simp only [Vector.slot]
      rw [uninitMoveN_getD _ _ _ _ _ _ (by rw [hlen]; omega),
        if_neg (by omega)]
      rw [getD_set_self _ _ _ (by rw [List.length_replicate]; omega)]
    · intro i hi
      simp only [Vector.slot]
      rw [uninitMoveN_getD _ _ _ _ _ _ (by rw [hlen]; omega),
        if_pos (by omega)]
      rw [show 0 + (i - 0) = i from by omega]

/-- C6 witness: appending 9 to `[7]` with spare capacity 2 places it in
slot 1 and keeps capacity 2; appending 9 to a full `[7]` (capacity 1)
reallocates to capacity `max 1 (2*1) = 2`. -/
theorem C6_witness :
    ((1 : Nat) < 2 ∧
      (Vector.EmplaceBack true (fun _ => false)
          ⟨⟨[some 7, none]⟩, 1⟩ 9 false).1.slot 1 = some 9) ∧
    ((1 : Nat) = 1 ∧
      (Vector.EmplaceBack true (fun _ => false)
          ⟨⟨[some 7]⟩, 1⟩ 9 false).1.Capacity = max 1 (2 * 1)) :=
  ⟨⟨by decide,
    ((C6_emplaceBack_append true ⟨⟨[some 7, none]⟩, 1⟩ 9).1 (by decide)).2.2.1⟩,
   ⟨rfl,
    ((C6_emplaceBack_append true ⟨⟨[some 7]⟩, 1⟩ 9).2 rfl).2.1⟩⟩

/-- C7: `Reserve(c)` with `c ≤ capacity` returns at once, changing nothing
observable; with `c > capacity` it produces capacity exactly `c`, keeping
the size and every element value; the capacity never decreases. -/
theorem C7_reserve (nm : Bool) (v : Vector) (c : Nat)
    (hsz : v.size ≤ v.Capacity) :
    (c ≤ v.Capacity → Vector.Reserve nm (fun _ => false) v c = (v, .ok ())) ∧
    (v.Capacity < c →
      (Vector.Reserve nm (fun _ => false) v c).1.Capacity = c ∧
      (Vector.Reserve nm (fun _ => false) v c).1.size = v.size ∧
      (Vector.Reserve nm (fun _ => false) v c).2 = .ok () ∧
      (∀ i, i < v.size →
        (Vector.Reserve nm (fun _ => false) v c).1.slot i = v.slot i)) ∧
    v.Capacity ≤ (Vector.Reserve nm (fun _ => false) v c).1.Capacity := by
  have hsz' : v.size ≤ v.data.slots.length := hsz
  by_cases h : c ≤ v.data.Capacity
  · rw [Reserve_noop_eq nm _ v c h]
    have h' : c ≤ v.Capacity := h
    exact ⟨fun _ => rfl, fun hlt => absurd hlt (by omega), Nat.le_refl _⟩
  · rw [Reserve_grow_eq nm v c h]
    have h' : v.Capacity < c := by
      have : ¬ c ≤ v.Capacity := h
      omega
    refine ⟨fun hle => absurd hle (by omega), fun _ => ⟨?_, rfl, rfl, ?_⟩, ?_⟩
    · simp only [Vector.Capacity, RawMemory.Capacity, uninitMoveN_length,
        List.length_replicate]
    · intro i hi
      simp only [Vector.slot]
      rw [uninitMoveN_getD _ _ _ _ _ _ (by rw [List.length_replicate]; omega),
        if_pos (by omega), show 0 + (i - 0) = i from by omega]
    · simp only [Vector.Capacity, RawMemory.Capacity, uninitMoveN_length,
        List.length_replicate]
      have h2 : v.data.slots.length < c := h'
      omega

/-- C7 witness: on `[4, 1]` with capacity 3, `Reserve 2` is a no-op and
`Reserve 5` yields capacity exactly 5 with slot 0 still holding 4. -/
theorem C7_witness :
    ((2 : Nat) ≤ 3 ∧
      Vector.Reserve true (fun _ => false) ⟨⟨[some 4, some 1, none]⟩, 2⟩ 2 =
        (⟨⟨[some 4, some 1, none]⟩, 2⟩, .ok ())) ∧
    ((3 : Nat) < 5 ∧
      (Vector.Reserve true (fun _ => false)
          ⟨⟨[some 4, some 1, none]⟩, 2⟩ 5).1.Capacity = 5 ∧
      (Vector.Reserve true (fun _ => false)
          ⟨⟨[some 4, some 1, none]⟩, 2⟩ 5).1.slot 0 = some 4) :=
  ⟨⟨by decide,
    (C7_reserve true ⟨⟨[some 4, some 1, none]⟩, 2⟩ 2 (by decide)).1 (by decide)⟩,
   ⟨by decide,
    ((C7_reserve true ⟨⟨[some 4, some 1, none]⟩, 2⟩ 5 (by decide)).2.1
      (by decide)).1,
    (((C7_reserve true ⟨⟨[some 4, some 1, none]⟩, 2⟩ 5 (by decide)).2.1
      (by decide)).2.2.2 0 (by decide))⟩⟩

/-- C5 counterexample: the claim routes `rhs.size ≤ size` (including
equality) to the overwrite-then-destroy path, but the code's second branch
condition is the strict `size_ > rhs.size_`.  For distinct vectors of equal
size 1 (capacity 1) the claim's rule selects case 2 while the code executes
case 3 (overwrite-then-construct, constructing nothing). -/
theorem C5_counterexample :
    copyAssignCaseSpec ⟨⟨[some 4]⟩, 1⟩ ⟨⟨[some 7]⟩, 1⟩ = 2 ∧
    Vector.copyAssignCase ⟨⟨[some 4]⟩, 1⟩ ⟨⟨[some 7]⟩, 1⟩ = 3 := by
  exact ⟨rfl, rfl⟩

/-- C5 (amended): copy-assigning `b` into a distinct `a` yields
`a.size = b.size` with every element copied from `b`; the path is selected
by comparing sizes with the boundary case `rhs.size = size` going to the
overwrite-then-construct branch (`rhs.size > capacity`: full temporary and
exchange; `rhs.size < size`: overwrite then destroy the excess; otherwise
`size ≤ rhs.size ≤ capacity`: overwrite then construct the remainder, which
at equality performs the same actions the claim's case 2 describes); in the
last two cases the capacity is unchanged. -/
theorem C5_copyAssign_three_cases (a b : Vector) (hsz : a.size ≤ a.Capacity) :
    (Vector.copyAssignBody (fun _ => false) a b).2 = .ok () ∧
    (Vector.copyAssignBody (fun _ => false) a b).1.size = b.size ∧
    (∀ i, i < b.size →
      (Vector.copyAssignBody (fun _ => false) a b).1.slot i = b.slot i) ∧
    (b.size ≤ a.Capacity →
      (Vector.copyAssignBody (fun _ => false) a b).1.Capacity = a.Capacity) ∧
    Vector.copyAssignCase a b =
      (if a.Capacity < b.size then 1 else if b.size < a.size then 2
        else 3) := by
  have e1 : a.data.Capacity = a.data.slots.length := rfl
  have hsz' : a.size ≤ a.data.slots.length := hsz
  by_cases h1 : b.size > a.data.Capacity
  · rw [copyAssignBody_case1_eq a b h1]
    refine ⟨rfl, rfl, ?_, ?_, rfl⟩
    · intro i hi
      simp only [Vector.slot]
      rw [uninitMoveN_getD _ _ _ _ _ _ (by rw [List.length_replicate]; omega),
        if_pos (by omega), show 0 + (i - 0) = i from by omega]
    · intro hle
      have h1' : a.Capacity < b.size := h1
      exact absurd hle (by omega)
  · by_cases h2 : a.size > b.size
    · rw [copyAssignBody_case2_eq a b h1 h2]
      refine ⟨rfl, rfl, ?_, ?_, rfl⟩
      · intro i hi
        simp only [Vector.slot]
        rw [destroyN_getD, if_neg (by omega),
          CopyN_getD _ _ _ _ (by omega), if_pos hi]
      · intro _
        simp only [Vector.Capacity, RawMemory.Capacity, destroyN_length,
          CopyN_length]
    · rw [copyAssignBody_case3_eq a b h1 h2]
      refine ⟨rfl, rfl, ?_, ?_, rfl⟩
      · intro i hi
        simp only [Vector.slot]
        rw [uninitMoveN_getD _ _ _ _ _ _ (by rw [CopyN_length]; omega)]
        by_cases hia : i < a.size
        · rw [if_neg (by omega), CopyN_getD _ _ _ _ (by omega), if_pos hia]
        · rw [if_pos (by omega), show a.size + (i - a.size) = i from by omega]
      · intro _
        simp only [Vector.Capacity, RawMemory.Capacity, uninitMoveN_length,
          CopyN_length]

/-- C5 witness: copy-assigning `[9]` into `[1, 2]` (capacity 2) gives size
1 with element 9 at slot 0 and capacity still 2 (the shrink path). -/
theorem C5_witness :
    (2 : Nat) ≤ 2 ∧ (0 : Nat) < 1 ∧
    (Vector.copyAssignBody (fun _ => false) ⟨⟨[some 1, some 2]⟩, 2⟩
        ⟨⟨[some 9]⟩, 1⟩).1.slot 0 = some 9 ∧
    (Vector.copyAssignBody (fun _ => false) ⟨⟨[some 1, some 2]⟩, 2⟩
        ⟨⟨[some 9]⟩, 1⟩).1.Capacity = 2 :=
  ⟨by decide, by decide,
   (C5_copyAssign_three_cases ⟨⟨[some 1, some 2]⟩, 2⟩ ⟨⟨[some 9]⟩, 1⟩
      (by decide)).2.2.1 0 (by decide),
   (C5_copyAssign_three_cases ⟨⟨[some 1, some 2]⟩, 2⟩ ⟨⟨[some 9]⟩, 1⟩
      (by decide)).2.2.2.1 (by decide)⟩

/-- C8: inserting at an interior position `p` of a vector with spare
capacity constructs the value in a temporary, relocates the last element
into slot `size`, shifts `[p, size)` one slot right back-to-front, and
move-assigns the temporary into slot `p`; the call returns offset `p`, size
grows by one, capacity is unchanged, the prefix keeps its values and the
old elements from `p` on reappear one slot to the right. -/
theorem C8_emplace_interior (nm : Bool) (v : Vector) (p x : Nat)
    (hp : p < v.size) (hc : v.size < v.Capacity) :
    (Vector.Emplace nm (fun _ => false) v p x false).2 = .ok p ∧
    (Vector.Emplace nm (fun _ => false) v p x false).1.size = v.size + 1 ∧
    (Vector.Emplace nm (fun _ => false) v p x false).1.Capacity =
      v.Capacity ∧
    (Vector.Emplace nm (fun _ => false) v p x false).1.slot p = some x ∧
    (∀ i, i < p →
      (Vector.Emplace nm (fun _ => false) v p x false).1.slot i = v.slot i) ∧
    (∀ i, p ≤ i → i < v.size →
      (Vector.Emplace nm (fun _ => false) v p x false).1.slot (i + 1) =
        v.slot i) := by
  have hc' : v.size < v.data.slots.length := hc
  have e1 : v.data.Capacity = v.data.slots.length := rfl
  rw [Emplace_inplace_eq nm _ v p x (by omega) (by omega)]
  have key : ∀ j,
      (moveBackwardN (v.data.slots.set v.size
          (v.data.slots.getD (v.size - 1) none))
        (v.size - 1) v.size (v.size - 1 - p)).getD j none =
      if v.size - 1 - (v.size - 1 - p) < j ∧ j ≤ v.size - 1 then
        (v.data.slots.set v.size
          (v.data.slots.getD (v.size - 1) none)).getD (j - 1) none
      else
        (v.data.slots.set v.size
          (v.data.slots.getD (v.size - 1) none)).getD j none := by
    intro j
    have hkey := moveBackwardN_getD
      (v.data.slots.set v.size (v.data.slots.getD (v.size - 1) none))
      (v.size - 1) (v.size - 1 - p) j (by rw [List.length_set]; omega)
      (by omega)
    rw [show v.size - 1 + 1 = v.size from by omega] at hkey
    exact hkey
  refine ⟨rfl, rfl, ?_, ?_, ?_, ?_⟩
  · simp only [Vector.Capacity, RawMemory.Capacity, List.length_set,
      moveBackwardN_length]
  · simp only [Vector.slot]
    rw [getD_set_self _ _ _
      (by rw [moveBackwardN_length, List.length_set]; omega)]
  · intro i hi
    simp only [Vector.slot]
    rw [getD_set_ne _ _ _ _ (by omega), key i, if_neg (by omega),
      getD_set_ne _ _ _ _ (by omega)]
  · intro i hpi hi
    simp only [Vector.slot]
    rw [getD_set_ne _ _ _ _ (by omega), key (i + 1)]
    by_cases hlast : i + 1 ≤ v.size - 1
    · rw [if_pos (by omega), show i + 1 - 1 = i from by omega,
        getD_set_ne _ _ _ _ (by omega)]
    · rw [if_neg (by omega), show i + 1 = v.size from by omega,
        getD_set_self _ _ _ hc', show v.size - 1 = i from by omega]

/-- C8 witness: inserting 99 at position 2 of `[1,2,3,4,5]` held in
capacity 6 yields `[1,2,99,3,4,5]` with size 6, and the theorem's inserted
slot reads back 99. -/
theorem C8_witness :
    (2 : Nat) < 5 ∧ (5 : Nat) < 6 ∧
    Vector.Emplace true (fun _ => false)
        ⟨⟨[some 1, some 2, some 3, some 4, some 5, none]⟩, 5⟩ 2 99 false =
      (⟨⟨[some 1, some 2, some 99, some 3, some 4, some 5]⟩, 6⟩, .ok 2) ∧
    (Vector.Emplace true (fun _ => false)
        ⟨⟨[some 1, some 2, some 3, some 4, some 5, none]⟩, 5⟩ 2 99
          false).1.slot 2 = some 99 :=
  ⟨by decide, by decide, rfl,
   (C8_emplace_interior true
      ⟨⟨[some 1, some 2, some 3, some 4, some 5, none]⟩, 5⟩ 2 99
      (by decide) (by decide)).2.2.2.1⟩

/-- C9: erasing position `p < size` shift-assigns `(p, end)` one slot left,
destroys the vacated last slot and decrements the size; capacity is
unchanged and the returned offset is `p`, which afterwards holds the
element that used to follow the removed one. -/
theorem C9_erase (v : Vector) (p : Nat) (hp : p < v.size)
    (hsz : v.size ≤ v.Capacity) :
    (Vector.Erase v p).2 = p ∧
    (Vector.Erase v p).1.size = v.size - 1 ∧
    (Vector.Erase v p).1.Capacity = v.Capacity ∧
    (∀ i, i < p → (Vector.Erase v p).1.slot i = v.slot i) ∧
    (∀ i, p ≤ i → i < v.size - 1 →
      (Vector.Erase v p).1.slot i = v.slot (i + 1)) ∧
    (Vector.Erase v p).1.slot (v.size - 1) = none ∧
    (p + 1 < v.size → (Vector.Erase v p).1.slot p = v.slot (p + 1)) := by
  have hsz' : v.size ≤ v.data.slots.length := hsz
  have key : ∀ i,
      (moveFwdN v.data.slots (p + 1) p (v.size - (p + 1))).getD i none =
      if p ≤ i ∧ i < p + (v.size - (p + 1)) then
        v.data.slots.getD (i + 1) none
      else v.data.slots.getD i none := by
    intro i
    exact moveFwdN_getD v.data.slots p (v.size - (p + 1)) i (by omega)
  refine ⟨rfl, rfl, ?_, ?_, ?_, ?_, ?_⟩
  · simp only [Vector.Erase, Vector.Capacity, RawMemory.Capacity,
      destroyN_length, moveFwdN_length]
  · intro i hi
    simp only [Vector.Erase, Vector.slot]
    rw [destroyN_getD, if_neg (by omega), key i, if_neg (by omega)]
  · intro i hpi hi
    simp only [Vector.Erase, Vector.slot]
    rw [destroyN_getD, if_neg (by omega), key i, if_pos (by omega)]
  · simp only [Vector.Erase, Vector.slot]
    rw [destroyN_getD, if_pos (by omega)]
  · intro hnext
    simp only [Vector.Erase, Vector.slot]
    rw [destroyN_getD, if_neg (by omega), key p, if_pos (by omega)]

/-- C9 witness: erasing position 2 of `[1,2,99,3,4,5]` yields `[1,2,3,4,5]`
with size 5, returned offset 2, and that offset now reads the value 3. -/
theorem C9_witness :
    (2 : Nat) < 6 ∧ (6 : Nat) ≤ 6 ∧
    Vector.Erase ⟨⟨[some 1, some 2, some 99, some 3, some 4, some 5]⟩, 6⟩ 2 =
      (⟨⟨[some 1, some 2, some 3, some 4, some 5, none]⟩, 5⟩, 2) ∧
    (Vector.Erase ⟨⟨[some 1, some 2, some 99, some 3, some 4, some 5]⟩, 6⟩
        2).1.slot 2 = some 3 :=
  ⟨by decide, by decide, rfl,
   (C9_erase ⟨⟨[some 1, some 2, some 99, some 3, some 4, some 5]⟩, 6⟩ 2
      (by decide) (by decide)).2.2.2.2.2.2 (by decide)⟩

end VectorModel
